import Mathlib

/-!
# Verification of the factori-imp factory engine

Shallow embedding of the core of the `factori-imp` repository:

* `factori-impl/src/define.rs` — the `factori!` definition parser
  (`Definition::parse` and the block parsers), `Definition::validate`,
  and the artifact generators (`generate_builder`, `generate_mixins`,
  `generate_transient_parts`).
* `factori-imp-impl/src/create.rs` — the `create!` / `create_vec!`
  composition (`Create::generate_code`, `create_vec_macro`).

The macros emit Rust code; the meaning of that emitted code is given by
Rust's struct-literal-with-functional-update rules: a literal
`S { f1: v1, ..., .. base }` takes the listed fields' values and copies
every other field from `base`; a field listed twice (error E0062) or a
field not present on `S` (error E0560) makes the program ill-formed.
`structLit` below embeds exactly those rules, so composition is settled
against the behaviour of the generated code, with failure surfaced as
`Except.error` (a terminal compile error at the call site).

Value expressions are opaque payloads (never interpreted by the engine),
so they are embedded as an arbitrary type `V`.  The result of a custom
`builder {}` block is opaque code producing the target type, embedded as
a function parameter `interp` into an arbitrary result type `R`.
-/

namespace Factori

/-- A parsed field of a `default {}` / `transient {}` / `mixin {}` block:
`name (: typ)? = value`, as collected by the block parsers in
`define.rs` (`DefaultBlock`, `TransientBlock`, `MixinBlock` keep one
`Vec` each for names, optional types and value expressions; here they
are zipped into one record). Types are opaque, kept as strings. -/
structure Field (V : Type) where
  name : String
  typ : Option String
  value : V
deriving DecidableEq, Repr

/-- A token tree at the top level of a `factori!` definition body, as
seen by the loop in `Definition::parse`: either a plain identifier or a
brace-delimited group whose content is a field list.  (Field-level
token errors inside a group are below this model's granularity; a group
is kept pre-parsed as its field list.) -/
inductive Tok (V : Type) where
  | ident (s : String)
  | braced (fs : List (Field V))
deriving DecidableEq, Repr

/-- The `Definition` struct of `define.rs` (the target-type identifier,
which plays no role in parsing the body or in composition, is elided).
`default` is the `DefaultBlock`, `transient` the optional
`TransientBlock`, `builder` the optional opaque builder token tree, and
`mixins` the `MixinBlock`s in declaration order (name, fields). -/
structure PDef (V : Type) where
  default : List (Field V)
  transient : Option (List (Field V))
  builder : Option (Tok V)
  mixins : List (String × List (Field V))
deriving DecidableEq, Repr

/-- The mutable locals of the parse loop in `Definition::parse`. -/
structure PState (V : Type) where
  default : Option (List (Field V))
  transient : Option (List (Field V))
  builder : Option (Tok V)
  mixins : List (String × List (Field V))
deriving DecidableEq, Repr

/-- Terminal errors of `Definition::parse` / `Definition::validate`.
`missingType` carries the name of the offending field (the Rust error
is spanned at that field's identifier). -/
inductive PErr where
  | dupDefault
  | dupBuilder
  | dupTransient
  | missingDefault
  | expectedIdent
  | expectedBrace
  | expectedToken
  | mixinBadField
  | transientBadField
  | missingType (field : String)
deriving DecidableEq, Repr

/-- The position of the block loop of `Definition::parse` inside one
iteration, i.e. what `inner.parse` is about to consume next:
`atKey` is the top of the loop (about to parse a block key, or to stop
on an empty stream); `inDefault` / `inTransient` are just after a
`default` / `transient` key whose duplicate guard passed (about to
parse the block's brace group); `inBuilder` is just after a fresh
`builder` key (about to take one arbitrary token tree);
`inMixinName` is just after a `mixin` key (about to parse the mixin's
name identifier) and `inMixinFields name` just after that name (about
to parse the mixin's brace group). -/
inductive Mode (V : Type) where
  | atKey
  | inDefault
  | inBuilder
  | inMixinName
  | inMixinFields (name : String)
  | inTransient
deriving DecidableEq, Repr

/-- The block loop of `Definition::parse` (define.rs lines 156-180),
one consumed token per step: at the loop top parse an identifier key —
a brace group there fails identifier parsing — and on `default` /
`builder` / `transient` check the duplicate-block guard before the
block content; any unrecognized key is skipped and the loop continues.
Block content: `DefaultBlock::parse` takes a brace group whose fields
may or may not carry types; `TransientBlock::parse` takes a brace
group all of whose fields carry types (a missing `:` fails);
`MixinBlock::parse` takes a name identifier and then a brace group
none of whose fields carries a type (a `:` makes its `=` parse fail);
the `builder` content is one arbitrary token tree.  A stream ending
mid-block fails with the corresponding expectation error. -/
def parseLoop {V : Type} : List (Tok V) → Mode V → PState V → Except PErr (PState V)
  | [], .atKey, st => .ok st
  | [], .inDefault, _ => .error .expectedBrace
  | [], .inBuilder, _ => .error .expectedToken
  | [], .inMixinName, _ => .error .expectedIdent
  | [], .inMixinFields _, _ => .error .expectedBrace
  | [], .inTransient, _ => .error .expectedBrace
  | t :: ts, .atKey, st =>
    match t with
    | .braced _ => .error .expectedIdent
    | .ident key =>
      if key = "default" then
        if st.default.isSome then .error .dupDefault
        else parseLoop ts .inDefault st
      else if key = "builder" then
        if st.builder.isSome then .error .dupBuilder
        else parseLoop ts .inBuilder st
      else if key = "mixin" then parseLoop ts .inMixinName st
      else if key = "transient" then
        if st.transient.isSome then .error .dupTransient
        else parseLoop ts .inTransient st
      else parseLoop ts .atKey st
  | t :: ts, .inDefault, st =>
    match t with
    | .braced fs => parseLoop ts .atKey { st with default := some fs }
    | _ => .error .expectedBrace
  | t :: ts, .inBuilder, st => parseLoop ts .atKey { st with builder := some t }
  | t :: ts, .inMixinName, st =>
    match t with
    | .ident name => parseLoop ts (.inMixinFields name) st
    | _ => .error .expectedIdent
  | t :: ts, .inMixinFields name, st =>
    match t with
    | .braced fs =>
      if fs.all (fun f => f.typ.isNone) then
        parseLoop ts .atKey { st with mixins := st.mixins ++ [(name, fs)] }
      else .error .mixinBadField
    | _ => .error .expectedBrace
  | t :: ts, .inTransient, st =>
    match t with
    | .braced fs =>
      if fs.all (fun f => f.typ.isSome) then
        parseLoop ts .atKey { st with transient := some fs }
      else .error .transientBadField
    | _ => .error .expectedBrace

/-- `Definition::parse` on a definition body (the token stream between
the outer braces): run the block loop from its top with the all-empty
state, then require the `default {}` block
(`default.ok_or_else(missing ...)`). -/
def parseDefinition {V : Type} (ts : List (Tok V)) : Except PErr (PDef V) :=
  match parseLoop ts .atKey ⟨none, none, none, []⟩ with
  | .error e => .error e
  | .ok st =>
    match st.default with
    | none => .error .missingDefault
    | some fs => .ok ⟨fs, st.transient, st.builder, st.mixins⟩

/-- `Definition::validate`: take the first default field without a type
annotation (`filter(...).next()`); if one exists and a `builder {}`
block is present, fail with an error located at that field's name. -/
def validate {V : Type} (d : PDef V) : Option PErr :=
  match d.default.find? (fun f => f.typ.isNone) with
  | some f => if d.builder.isSome then some (.missingType f.name) else none
  | none => none

/-- One definition's path through `define_macro`: parse, then validate;
a validation error replaces the generated artifacts. -/
def defineDef {V : Type} (ts : List (Tok V)) : Except PErr (PDef V) :=
  match parseDefinition ts with
  | .error e => .error e
  | .ok d =>
    match validate d with
    | some e => .error e
    | none => .ok d

/-! ## Composition semantics (create.rs plus the generated code) -/

/-- Terminal (compile-time) errors of the code generated at a
`create!` call site: a duplicate field in a struct literal (E0062), a
field absent from the builder struct (E0560), a mixin name that is not
a variant of the generated mixins enum. -/
inductive CErr where
  | dupField
  | unknownField
  | unknownMixin
deriving DecidableEq, Repr

/-- An instance of the builder struct (the Intermediate Shape): its
fields in declaration order with their current values. -/
abbrev Shape (V : Type) := List (String × V)

/-- First-match association lookup on a shape / pair list. -/
def alookup {V : Type} : List (String × V) → String → Option V
  | [], _ => none
  | (k, v) :: r, n => if k = n then some v else alookup r n

/-- The (name, value) pairs of a block's field list. -/
def fieldsOf {V : Type} (fs : List (Field V)) : Shape V :=
  fs.map fun f => (f.name, f.value)

/-- `factori::Default::default()` as emitted by
`Definition::generate_builder`: with no `builder {}` block the builder
type is the target type itself, populated from the default fields only
(`generate_transient_parts` output is unused there, so transients are
dropped); with a `builder {}` block the generated builder struct holds
the default fields followed by the transient fields, each in
declaration order. -/
def defaultShape {V : Type} (d : PDef V) : Shape V :=
  match d.builder with
  | none => fieldsOf d.default
  | some _ => fieldsOf d.default ++ fieldsOf (d.transient.getD [])

/-- Rust's struct-literal-with-functional-update rules for the emitted
`S { pairs , .. base }`: reject a field listed twice (E0062) or a field
not on the struct (E0560); otherwise every listed field takes its
listed value and every other field is copied from `base`. -/
def structLit {V : Type} (pairs : Shape V) (base : Shape V) :
    Except CErr (Shape V) :=
  if (pairs.map Prod.fst).Nodup then
    if pairs.all (fun p => decide (p.1 ∈ base.map Prod.fst)) then
      .ok (base.map fun b => (b.1, (alookup pairs b.1).getD b.2))
    else .error .unknownField
  else .error .dupField

/-- Resolving `_Factori...Mixins::name`: the variant exists only for a
declared mixin; its field pairs come from that `MixinBlock`. -/
def lookupMixin {V : Type} (d : PDef V) (name : String) : Option (Shape V) :=
  (d.mixins.find? (fun m => decide (m.1 = name))).map fun m => fieldsOf m.2

/-- `factori::Mixin::extend` as emitted by `generate_mixins`:
`Builder { mixin_fields: mixin_values , .. other }`. -/
def extend {V : Type} (d : PDef V) (name : String) (s : Shape V) :
    Except CErr (Shape V) :=
  match lookupMixin d name with
  | none => .error .unknownMixin
  | some mp => structLit mp s

/-- The fold in `Create::generate_code`: apply each remaining requested
mixin, in order, over the accumulator. -/
def extendAll {V : Type} (d : PDef V) : List String → Shape V → Except CErr (Shape V)
  | [], s => .ok s
  | n :: rest, s =>
    match extend d n s with
    | .error e => .error e
    | .ok s' => extendAll d rest s'

/-- The seed-and-fold of `Create::generate_code` (create.rs lines
87-99): with no requested mixin the value is `Default::default()`;
otherwise `Mixin::default(m1)` — which `generate_mixins` defines as
`m1.extend(Default::default())` — and then a fold of `extend` over the
remaining mixins in request order. -/
def composeMixins {V : Type} (d : PDef V) : List String → Except CErr (Shape V)
  | [] => .ok (defaultShape d)
  | m :: rest =>
    match extend d m (defaultShape d) with
    | .error e => .error e
    | .ok init => extendAll d rest init

/-- The struct literal emitted by `Create::generate_code` (lines
101-112): the explicit `field: value` overrides, with the mixin
composition as the `..` base. -/
def createShape {V : Type} (d : PDef V) (names : List String)
    (overrides : Shape V) : Except CErr (Shape V) :=
  match composeMixins d names with
  | .error e => .error e
  | .ok base => structLit overrides base

/-- `factori::Builder::build` as emitted by `generate_builder`: with no
`builder {}` block it returns `self` unchanged (the builder type is the
target type); with a `builder {}` block it binds every default field
and then every transient field, each in declaration order, to `self`'s
values — which is exactly the shape `s` as an environment — and returns
the opaque builder body's result, of the opaque target type `R`. -/
def build {V R : Type} (interp : Tok V → Shape V → R) (d : PDef V)
    (s : Shape V) : Shape V ⊕ R :=
  match d.builder with
  | none => .inl s
  | some b => .inr (interp b s)

/-- A whole `create!` call site: `Builder::build(Builder { overrides ,
.. mixin-fold })`. -/
def create {V R : Type} (interp : Tok V → Shape V → R) (d : PDef V)
    (names : List String) (overrides : Shape V) :
    Except CErr (Shape V ⊕ R) :=
  match createShape d names overrides with
  | .error e => .error e
  | .ok s => .ok (build interp d s)

/-- `create_vec_macro`: `(0..count).map(|_| create-code).collect()` —
the single-instance code evaluated once per index. -/
def create_vec {V R : Type} (interp : Tok V → Shape V → R) (d : PDef V)
    (count : Nat) (names : List String) (overrides : Shape V) :
    Except CErr (List (Shape V ⊕ R)) :=
  (List.range count).mapM fun _ => create interp d names overrides

/-! ## Specification-side helpers used to state the claims -/

/-- One step of the "last requested mixin that sets `f` wins"
accumulator: a requested mixin that resolves and sets `f` replaces the
accumulated value, anything else keeps it. -/
def mixinStep {V : Type} (d : PDef V) (f : String) (acc : Option V)
    (n : String) : Option V :=
  match lookupMixin d n with
  | none => acc
  | some mp =>
    match alookup mp f with
    | some v => some v
    | none => acc

/-- The value for field `f` contributed by the last mixin in `names`
(request order) that sets `f`, if any. -/
def lastMixinValue {V : Type} (d : PDef V) (names : List String)
    (f : String) : Option V :=
  names.foldl (mixinStep d f) none

/-- Whether an `Except` computation succeeded. -/
def exceptOk {ε α : Type} : Except ε α → Bool
  | .ok _ => true
  | .error _ => false

/-- 1 if the option is filled, 0 otherwise (used to count a parse-state
slot together with the blocks still to come). -/
def obit {α : Type} : Option α → Nat
  | none => 0
  | some _ => 1

/-! ## Block-level view of a definition body

A grammar-conformant definition body is a sequence of blocks; `Block`
records one block and `Block.toks` is the token stream it occupies, so
`flattenBlocks` turns a block sequence into the exact input
`Definition::parse` sees.  `stepBlock`/`runBlocks` restate the parse
loop one block at a time; they are proved equal to `parseLoop` on
flattened block lists below. -/

/-- One grammar block of a definition body. -/
inductive Block (V : Type) where
  | default (fs : List (Field V))
  | builder (body : Tok V)
  | mixin (name : String) (fs : List (Field V))
  | transient (fs : List (Field V))
deriving DecidableEq, Repr

/-- The token stream of one block. -/
def Block.toks {V : Type} : Block V → List (Tok V)
  | .default fs => [.ident "default", .braced fs]
  | .builder body => [.ident "builder", body]
  | .mixin name fs => [.ident "mixin", .ident name, .braced fs]
  | .transient fs => [.ident "transient", .braced fs]

/-- The token stream of a whole definition body. -/
def flattenBlocks {V : Type} : List (Block V) → List (Tok V)
  | [] => []
  | b :: l => Block.toks b ++ flattenBlocks l

/-- The effect of one block on the parse-loop state (same guards, in
the same order, as the corresponding `parseLoop` branch). -/
def stepBlock {V : Type} (b : Block V) (st : PState V) :
    Except PErr (PState V) :=
  match b with
  | .default fs =>
    if st.default.isSome then .error .dupDefault
    else .ok { st with default := some fs }
  | .builder body =>
    if st.builder.isSome then .error .dupBuilder
    else .ok { st with builder := some body }
  | .mixin name fs =>
    if fs.all (fun f => f.typ.isNone) then
      .ok { st with mixins := st.mixins ++ [(name, fs)] }
    else .error .mixinBadField
  | .transient fs =>
    if st.transient.isSome then .error .dupTransient
    else
      if fs.all (fun f => f.typ.isSome) then
        .ok { st with transient := some fs }
      else .error .transientBadField

/-- The parse loop, one block at a time. -/
def runBlocks {V : Type} : List (Block V) → PState V → Except PErr (PState V)
  | [], st => .ok st
  | b :: l, st =>
    match stepBlock b st with
    | .error e => .error e
    | .ok st' => runBlocks l st'

/-- Block classifiers. -/
def Block.isDefault {V : Type} : Block V → Bool
  | .default _ => true
  | _ => false

def Block.isBuilder {V : Type} : Block V → Bool
  | .builder _ => true
  | _ => false

def Block.isTransient {V : Type} : Block V → Bool
  | .transient _ => true
  | _ => false

def Block.isMixin {V : Type} : Block V → Bool
  | .mixin _ _ => true
  | _ => false

/-- Number of `default {}` blocks in a body. -/
def countD {V : Type} (l : List (Block V)) : Nat := l.countP Block.isDefault

/-- Number of `builder {}` blocks in a body. -/
def countB {V : Type} (l : List (Block V)) : Nat := l.countP Block.isBuilder

/-- Number of `transient {}` blocks in a body. -/
def countT {V : Type} (l : List (Block V)) : Nat := l.countP Block.isTransient

/-- The first `default {}` block's fields, if any. -/
def firstD {V : Type} (l : List (Block V)) : Option (List (Field V)) :=
  l.findSome? fun b => match b with | .default fs => some fs | _ => none

/-- The first `builder {}` block's body, if any. -/
def firstB {V : Type} (l : List (Block V)) : Option (Tok V) :=
  l.findSome? fun b => match b with | .builder body => some body | _ => none

/-- The first `transient {}` block's fields, if any. -/
def firstT {V : Type} (l : List (Block V)) : Option (List (Field V)) :=
  l.findSome? fun b => match b with | .transient fs => some fs | _ => none

/-- The mixin blocks of a body, in declaration order. -/
def mixinsOf {V : Type} (l : List (Block V)) : List (String × List (Field V)) :=
  l.filterMap fun b => match b with | .mixin n fs => some (n, fs) | _ => none

/-- Grammar-conformance of one block's field list: mixin fields carry
no type (`name = expr`), transient fields always carry one
(`name : ty = expr`). -/
def wfBlock {V : Type} : Block V → Bool
  | .mixin _ fs => fs.all fun f => f.typ.isNone
  | .transient fs => fs.all fun f => f.typ.isSome
  | _ => true

/-- Grammar-conformance of a whole body. -/
def wfBlocks {V : Type} (l : List (Block V)) : Bool := l.all wfBlock

/-! ## Concrete instances used by witnesses and counterexamples -/

/-- A factory with default `{f = 4, g = 0}` and mixins `A {f = 1}` and
`B {f = 2}` (the spec's order-sensitivity scenario), over `V := Nat`. -/
def dAB : PDef Nat :=
  { default := [⟨"f", none, 4⟩, ⟨"g", none, 0⟩]
    transient := none
    builder := none
    mixins := [("A", [⟨"f", none, 1⟩]), ("B", [⟨"f", none, 2⟩])] }

/-- A factory with a `builder {}` block, a typed default field and a
transient field (the spec's transient/transform scenario). -/
def dBuild : PDef Nat :=
  { default := [⟨"age", some "u8", 42⟩]
    transient := some [⟨"dbl", some "u8", 0⟩]
    builder := some (.braced [])
    mixins := [] }

/-- A sample interpretation of `dBuild`'s opaque builder body: consume
the bound `age` and `dbl` values into a target of type `Nat`. -/
def exBody : Tok Nat → Shape Nat → Nat :=
  fun _ s => ((alookup s "age").getD 0) * (1 + (alookup s "dbl").getD 0)

/-- A definition body whose default field `f` has no type annotation
while a `builder {}` block is present. -/
def lC6 : List (Block Nat) :=
  [.default [⟨"f", none, 1⟩], .builder (.braced [])]

/-- A mixin block before the default block... -/
def lP1 : List (Block Nat) :=
  [.mixin "A" [⟨"f", none, 1⟩], .default [⟨"f", none, 4⟩]]

/-- ... and the same two blocks the other way around. -/
def lP2 : List (Block Nat) :=
  [.default [⟨"f", none, 4⟩], .mixin "A" [⟨"f", none, 1⟩]]

/-! ## Lemmas: association lookup and struct literals -/

theorem alookup_isSome_iff {V : Type} (l : List (String × V)) (n : String) :
    (alookup l n).isSome = true ↔ n ∈ l.map Prod.fst := by
  induction l with
  | nil => simp [alookup]
  | cons e l ih =>
    obtain ⟨k, v⟩ := e
    by_cases h : k = n
    · subst h
      simp [alookup]
    · have h' : ¬ n = k := fun hh => h hh.symm
      simp [alookup, h, h', ih]

theorem mem_of_alookup_some {V : Type} {l : List (String × V)} {n : String}
    {v : V} (h : alookup l n = some v) : n ∈ l.map Prod.fst := by
  rw [← alookup_isSome_iff, h]
  rfl

theorem alookup_map_replace {V : Type} (p b : List (String × V)) (n : String) :
    alookup (b.map fun e => (e.1, (alookup p e.1).getD e.2)) n
      = (alookup b n).map fun w => (alookup p n).getD w := by
  induction b with
  | nil => simp [alookup]
  | cons e b ih =>
    by_cases h : e.1 = n
    · subst h
      simp [alookup]
    · simp [alookup, h, ih]

theorem structLit_eq_ok {V : Type} {pairs base s : Shape V}
    (h : structLit pairs base = .ok s) :
    s = (base.map fun e => (e.1, (alookup pairs e.1).getD e.2))
      ∧ (pairs.map Prod.fst).Nodup
      ∧ ∀ n ∈ pairs.map Prod.fst, n ∈ base.map Prod.fst := by
  unfold structLit at h
  split_ifs at h with h1 h2
  · cases h
    refine ⟨rfl, h1, ?_⟩
    intro n hn
    rcases List.mem_map.mp hn with ⟨pr, hpr, rfl⟩
    have := List.all_eq_true.mp h2 pr hpr
    exact of_decide_eq_true this

theorem structLit_keys {V : Type} {pairs base s : Shape V}
    (h : structLit pairs base = .ok s) :
    s.map Prod.fst = base.map Prod.fst := by
  rcases structLit_eq_ok h with ⟨rfl, -, -⟩
  simp [List.map_map]

theorem alookup_structLit {V : Type} {pairs base s : Shape V}
    (h : structLit pairs base = .ok s) (n : String) :
    alookup s n = (alookup base n).map fun w => (alookup pairs n).getD w := by
  rcases structLit_eq_ok h with ⟨rfl, -, -⟩
  exact alookup_map_replace pairs base n

theorem structLit_dup {V : Type} {pairs : Shape V} (base : Shape V)
    (h : ¬ (pairs.map Prod.fst).Nodup) :
    structLit pairs base = .error .dupField := by
  unfold structLit
  rw [if_neg h]

theorem structLit_nil {V : Type} (base : Shape V) :
    structLit ([] : Shape V) base = .ok base := by
  unfold structLit
  simp [alookup]

/-! ## Lemmas: the mixin fold -/

theorem extend_eq_ok {V : Type} {d : PDef V} {name : String} {s s' : Shape V}
    (h : extend d name s = .ok s') :
    ∃ mp, lookupMixin d name = some mp ∧ structLit mp s = .ok s' := by
  unfold extend at h
  cases hm : lookupMixin d name with
  | none => rw [hm] at h; cases h
  | some mp => rw [hm] at h; exact ⟨mp, rfl, h⟩

theorem extendAll_keys {V : Type} {d : PDef V} :
    ∀ {names : List String} {s s' : Shape V},
      extendAll d names s = .ok s' → s'.map Prod.fst = s.map Prod.fst := by
  intro names
  induction names with
  | nil =>
    intro s s' h
    cases h
    rfl
  | cons n rest ih =>
    intro s s' h
    unfold extendAll at h
    cases he : extend d n s with
    | error e => rw [he] at h; cases h
    | ok s1 =>
      rw [he] at h
      rcases extend_eq_ok he with ⟨mp, -, hlit⟩
      rw [ih h, structLit_keys hlit]

theorem option_none_or {α : Type} (o : Option α) : (Option.none).or o = o := rfl

theorem option_some_or {α : Type} (x : α) (o : Option α) :
    (some x).or o = some x := rfl

theorem mixinStep_none {V : Type} (d : PDef V) (f n : String) (mp : Shape V)
    (hm : lookupMixin d n = some mp) :
    mixinStep d f none n = alookup mp f := by
  cases hmf : alookup mp f <;> simp [mixinStep, hm, hmf]

theorem foldl_mixinStep_or {V : Type} (d : PDef V) (f : String) :
    ∀ (names : List String) (acc : Option V),
      names.foldl (mixinStep d f) acc
        = (names.foldl (mixinStep d f) none).or acc := by
  intro names
  induction names with
  | nil =>
    intro acc
    simp [option_none_or]
  | cons n rest ih =>
    intro acc
    rw [List.foldl_cons, List.foldl_cons, ih (mixinStep d f acc n),
      ih (mixinStep d f none n)]
    cases hx : rest.foldl (mixinStep d f) none with
    | some x => rfl
    | none =>
      rw [option_none_or, option_none_or]
      cases hlm : lookupMixin d n with
      | none => simp [mixinStep, hlm, option_none_or]
      | some mp =>
        cases hmf : alookup mp f with
        | none => simp [mixinStep, hlm, hmf, option_none_or]
        | some v => simp [mixinStep, hlm, hmf, option_some_or]

theorem extendAll_lookup {V : Type} {d : PDef V} :
    ∀ {names : List String} {s s' : Shape V},
      extendAll d names s = .ok s' → ∀ f,
        alookup s' f = (lastMixinValue d names f).or (alookup s f) := by
  intro names
  induction names with
  | nil =>
    intro s s' h f
    cases h
    rfl
  | cons n rest ih =>
    intro s s' h f
    unfold extendAll at h
    cases he : extend d n s with
    | error e => rw [he] at h; cases h
    | ok s1 =>
      rw [he] at h
      rcases extend_eq_ok he with ⟨mp, hm, hlit⟩
      have hrest := ih h f
      have hcons : lastMixinValue d (n :: rest) f
          = (lastMixinValue d rest f).or (mixinStep d f none n) := by
        unfold lastMixinValue
        rw [List.foldl_cons, foldl_mixinStep_or]
      rw [hrest, hcons]
      cases hr : lastMixinValue d rest f with
      | some v => rfl
      | none =>
        rw [option_none_or, option_none_or, mixinStep_none d f n mp hm]
        have hs1 := alookup_structLit hlit f
        cases hmf : alookup mp f with
        | none =>
          rw [hmf] at hs1
          rw [hs1, option_none_or]
          cases alookup s f <;> rfl
        | some v =>
          rw [hmf] at hs1
          have hmem : f ∈ s.map Prod.fst :=
            (structLit_eq_ok hlit).2.2 f (mem_of_alookup_some hmf)
          rcases Option.isSome_iff_exists.mp
            ((alookup_isSome_iff s f).mpr hmem) with ⟨w, hw⟩
          rw [hw] at hs1
          rw [hs1, option_some_or]
          rfl

theorem composeMixins_eq_extendAll {V : Type} (d : PDef V)
    (names : List String) :
    composeMixins d names = extendAll d names (defaultShape d) := by
  cases names with
  | nil => rfl
  | cons m rest =>
    cases he : extend d m (defaultShape d) with
    | error e => simp [composeMixins, extendAll, he]
    | ok init => simp [composeMixins, extendAll, he]

theorem composeMixins_keys {V : Type} {d : PDef V} {names : List String}
    {s : Shape V} (h : composeMixins d names = .ok s) :
    s.map Prod.fst = (defaultShape d).map Prod.fst := by
  rw [composeMixins_eq_extendAll] at h
  exact extendAll_keys h

theorem createShape_eq_ok {V : Type} {d : PDef V} {names : List String}
    {ovr s : Shape V} (h : createShape d names ovr = .ok s) :
    ∃ base, composeMixins d names = .ok base ∧ structLit ovr base = .ok s := by
  unfold createShape at h
  cases hc : composeMixins d names with
  | error e => rw [hc] at h; cases h
  | ok base => rw [hc] at h; exact ⟨base, rfl, h⟩

theorem createShape_keys {V : Type} {d : PDef V} {names : List String}
    {ovr s : Shape V} (h : createShape d names ovr = .ok s) :
    s.map Prod.fst = (defaultShape d).map Prod.fst := by
  rcases createShape_eq_ok h with ⟨base, hc, hlit⟩
  rw [structLit_keys hlit, composeMixins_keys hc]

theorem fieldsOf_keys {V : Type} (fs : List (Field V)) :
    (fieldsOf fs).map Prod.fst = fs.map Field.name := by
  unfold fieldsOf
  rw [List.map_map]
  rfl

theorem mapM_loop_const {ε β α : Type} (x : β) :
    ∀ (l : List α) (acc : List β),
      List.mapM.loop (fun _ => (Except.ok x : Except ε β)) l acc
        = .ok (acc.reverse ++ List.replicate l.length x) := by
  intro l
  induction l with
  | nil =>
    intro acc
    simp only [List.mapM.loop, List.length_nil, List.replicate_zero,
      List.append_nil]
    rfl
  | cons a l ih =>
    intro acc
    simp only [List.mapM.loop, List.length_cons, List.replicate_succ]
    rw [show (Except.ok x >>= fun b =>
        List.mapM.loop (fun _ => (Except.ok x : Except ε β)) l (b :: acc))
      = List.mapM.loop (fun _ => (Except.ok x : Except ε β)) l (x :: acc)
        from rfl]
    rw [ih (x :: acc)]
    simp

theorem mapM_const_ok {ε β α : Type} (x : β) (l : List α) :
    (l.mapM fun _ => (Except.ok x : Except ε β))
      = .ok (List.replicate l.length x) := by
  show List.mapM.loop _ l [] = _
  rw [mapM_loop_const]
  rfl

/-! ## The claims about composition -/

/-- C1: the requested mixins are applied in list order over the
default-constructed seed, and a later mixin strictly overrides a field
also set by an earlier one: the composed shape's value at any field `f`
is the value from the last requested mixin that sets `f`, falling back
to the default-constructed value when no requested mixin sets it.  (So
with mixin `A` setting `f = 1` and `B` setting `f = 2`, composing
`[A, B]` yields `f = 2` and `[B, A]` yields `f = 1` — the witness
instantiates exactly that scenario.) -/
theorem c1_mixin_order {V : Type} (d : PDef V) (names : List String)
    (s : Shape V) (f : String) (h : composeMixins d names = .ok s) :
    alookup s f = (lastMixinValue d names f).or (alookup (defaultShape d) f) := by
  rw [composeMixins_eq_extendAll] at h
  exact extendAll_lookup h f

theorem c1_mixin_order_witness :
    (lastMixinValue dAB ["A", "B"] "f").or (alookup (defaultShape dAB) "f")
        = some 2 ∧
    (lastMixinValue dAB ["B", "A"] "f").or (alookup (defaultShape dAB) "f")
        = some 1 ∧
    alookup [("f", 2), ("g", 0)] "f"
      = (lastMixinValue dAB ["A", "B"] "f").or (alookup (defaultShape dAB) "f") ∧
    alookup [("f", 1), ("g", 0)] "f"
      = (lastMixinValue dAB ["B", "A"] "f").or (alookup (defaultShape dAB) "f") :=
  ⟨rfl, rfl,
    c1_mixin_order dAB ["A", "B"] [("f", 2), ("g", 0)] "f" rfl,
    c1_mixin_order dAB ["B", "A"] [("f", 1), ("g", 0)] "f" rfl⟩

/-- C2: an explicit field override outranks every requested mixin: if
the override list carries `f` (necessarily exactly once, else the call
is rejected), the composed instance carries the override's value at
`f`, whatever the mixin list did. -/
theorem c2_override_precedence {V : Type} (d : PDef V) (names : List String)
    (ovr s : Shape V) (f : String) (v : V)
    (h : createShape d names ovr = .ok s) (hv : alookup ovr f = some v) :
    alookup s f = some v := by
  rcases createShape_eq_ok h with ⟨base, hc, hlit⟩
  have hl := alookup_structLit hlit f
  rw [hv] at hl
  have hmem : f ∈ base.map Prod.fst :=
    (structLit_eq_ok hlit).2.2 f (mem_of_alookup_some hv)
  rcases Option.isSome_iff_exists.mp
    ((alookup_isSome_iff base f).mpr hmem) with ⟨w, hw⟩
  rw [hw] at hl
  rw [hl]
  rfl

theorem c2_override_precedence_witness :
    alookup [("f", 9), ("g", 0)] "f" = some 9 :=
  c2_override_precedence dAB ["A"] [("f", 9)] [("f", 9), ("g", 0)] "f" 9 rfl rfl

/-- C3: `create!` with no mixins and no overrides returns exactly the
default constructor's output passed through the build step; and with no
`builder {}` block the build step is the identity, so the returned
instance is the composed Intermediate Shape itself, field for field. -/
theorem c3_identity_composition {V R : Type} (interp : Tok V → Shape V → R)
    (d : PDef V) :
    create interp d [] [] = .ok (build interp d (defaultShape d)) ∧
    (d.builder = none → create interp d [] [] = .ok (.inl (defaultShape d))) := by
  have hcs : createShape d [] [] = .ok (defaultShape d) := by
    show structLit [] (defaultShape d) = .ok (defaultShape d)
    exact structLit_nil _
  have hcr : create interp d [] [] = .ok (build interp d (defaultShape d)) := by
    unfold create
    rw [hcs]
  refine ⟨hcr, fun hb => ?_⟩
  rw [hcr]
  unfold build
  rw [hb]

theorem c3_identity_composition_witness :
    create (fun _ _ => ()) dAB [] [] = .ok (.inl (defaultShape dAB)) :=
  (c3_identity_composition (fun _ _ => ()) dAB).2 rfl

/-- C4: with a `builder {}` block, the build step binds every default
field and then every transient field, each group in declaration order,
to the composed shape's values — the composed shape is exactly that
environment: its field list is the default field names followed by the
transient field names — and returns the opaque builder body's result
(`Sum.inr`), of the opaque target type `R`.  The transient fields are
consumed with the rest of the environment and reach the returned value
only through the body's output, never as fields of it. -/
theorem c4_builder_binding {V R : Type} (interp : Tok V → Shape V → R)
    (d : PDef V) (b : Tok V) (names : List String) (ovr s : Shape V)
    (hb : d.builder = some b) (hs : createShape d names ovr = .ok s) :
    create interp d names ovr = .ok (.inr (interp b s)) ∧
    s.map Prod.fst
      = d.default.map Field.name ++ (d.transient.getD []).map Field.name := by
  constructor
  · unfold create
    rw [hs]
    unfold build
    rw [hb]
  · rw [createShape_keys hs]
    unfold defaultShape
    rw [hb, List.map_append, fieldsOf_keys, fieldsOf_keys]

theorem c4_builder_binding_witness :
    create exBody dBuild [] [("dbl", 1)]
      = .ok (.inr (exBody (Tok.braced []) [("age", 42), ("dbl", 1)])) ∧
    ([("age", 42), ("dbl", 1)] : Shape Nat).map Prod.fst
      = dBuild.default.map Field.name
          ++ (dBuild.transient.getD []).map Field.name :=
  c4_builder_binding exBody dBuild (Tok.braced []) [] [("dbl", 1)]
    [("age", 42), ("dbl", 1)] rfl rfl

/-- C5 counterexample: a request repeating a field in its override list
is not accepted with the last occurrence winning: the generated struct
literal repeats the field, which is a duplicate-field compile error at
the call site. -/
theorem c5_counterexample :
    create (fun _ _ => ()) dAB [] [("f", 8), ("f", 9)] = .error .dupField ∧
    create (fun _ _ => ()) dAB [] [("f", 8), ("f", 9)]
      ≠ .ok (.inl [("f", 9), ("g", 0)]) :=
  ⟨rfl, fun h => Except.noConfusion h⟩

/-- C5 (amended): a request whose override list names the same field
more than once is rejected — the emitted struct literal lists the field
twice, a terminal duplicate-field error — whenever the mixin part of
the request is itself valid. -/
theorem c5_duplicate_override_rejected {V R : Type}
    (interp : Tok V → Shape V → R) (d : PDef V) (names : List String)
    (ovr : Shape V) (hdup : ¬ (ovr.map Prod.fst).Nodup)
    (hok : exceptOk (composeMixins d names) = true) :
    create interp d names ovr = .error .dupField := by
  cases hc : composeMixins d names with
  | error e =>
    rw [hc] at hok
    exact Bool.noConfusion hok
  | ok base =>
    have hcs : createShape d names ovr = .error .dupField := by
      unfold createShape
      rw [hc]
      exact structLit_dup base hdup
    unfold create
    rw [hcs]

theorem c5_duplicate_override_rejected_witness :
    create (fun _ _ => ()) dAB ["A"] [("f", 8), ("f", 9)] = .error .dupField :=
  c5_duplicate_override_rejected (fun _ _ => ()) dAB ["A"]
    [("f", 8), ("f", 9)] (by decide) rfl

/-- C8: applying one declared mixin to a shape yields a new shape with
the same field list in which exactly the mixin's named fields carry the
mixin's values and every other field carries the input shape's value
unchanged; the embedding is purely functional, so the input shape
itself is never mutated. -/
theorem c8_mixin_frame {V : Type} (d : PDef V) (name : String)
    (mp s s' : Shape V) (f : String) (v : V)
    (hm : lookupMixin d name = some mp) (hs : extend d name s = .ok s') :
    s'.map Prod.fst = s.map Prod.fst ∧
    (alookup mp f = some v → alookup s' f = some v) ∧
    (alookup mp f = none → alookup s' f = alookup s f) := by
  rcases extend_eq_ok hs with ⟨mp', hm', hlit⟩
  rw [hm] at hm'
  injection hm' with hmp
  subst hmp
  refine ⟨structLit_keys hlit, ?_, ?_⟩
  · intro hv
    have hl := alookup_structLit hlit f
    rw [hv] at hl
    have hmem : f ∈ s.map Prod.fst :=
      (structLit_eq_ok hlit).2.2 f (mem_of_alookup_some hv)
    rcases Option.isSome_iff_exists.mp
      ((alookup_isSome_iff s f).mpr hmem) with ⟨w, hw⟩
    rw [hw] at hl
    rw [hl]
    rfl
  · intro hv
    have hl := alookup_structLit hlit f
    rw [hv] at hl
    rw [hl]
    cases alookup s f <;> rfl

theorem c8_mixin_frame_witness :
    ([("f", 1), ("g", 0)] : Shape Nat).map Prod.fst
      = ([("f", 4), ("g", 0)] : Shape Nat).map Prod.fst ∧
    (alookup [("f", 1)] "g" = some 0
      → alookup [("f", 1), ("g", 0)] "g" = some 0) ∧
    (alookup [("f", 1)] "g" = none
      → alookup [("f", 1), ("g", 0)] "g" = alookup [("f", 4), ("g", 0)] "g") :=
  c8_mixin_frame dAB "A" [("f", 1)] [("f", 4), ("g", 0)]
    [("f", 1), ("g", 0)] "g" 0 rfl rfl

/-- C9: `create_vec!` returns an ordered sequence of length exactly
`count` in which every element is the value of the single-instance
`create!` code with the identical arguments (the code is re-run per
index, and in this pure embedding each run yields the same value, so no
state can leak between elements); `count = 0` yields the empty
sequence. -/
theorem c9_create_vec {V R : Type} (interp : Tok V → Shape V → R)
    (d : PDef V) (count : Nat) (names : List String) (ovr : Shape V)
    (x : Shape V ⊕ R) (h : create interp d names ovr = .ok x) :
    create_vec interp d count names ovr = .ok (List.replicate count x) ∧
    (List.replicate count x).length = count ∧
    (∀ y ∈ List.replicate count x, y = x) ∧
    create_vec interp d 0 names ovr = .ok ([] : List (Shape V ⊕ R)) := by
  have hvec : ∀ c : Nat,
      create_vec interp d c names ovr = .ok (List.replicate c x) := by
    intro c
    unfold create_vec
    rw [show (fun _ : Nat => create interp d names ovr)
        = (fun _ : Nat => Except.ok x) from funext fun _ => h]
    rw [mapM_const_ok, List.length_range]
  exact ⟨hvec count, by simp, fun y hy => List.eq_of_mem_replicate hy, hvec 0⟩

theorem c9_create_vec_witness :
    create_vec (fun _ _ => ()) dAB 3 ["A"] []
      = .ok (List.replicate 3 (Sum.inl [("f", 1), ("g", 0)])) :=
  (c9_create_vec (fun _ _ => ()) dAB 3 ["A"] []
    (Sum.inl [("f", 1), ("g", 0)]) rfl).1

/-! ## Lemmas: the parse loop, block by block, and block reordering -/

theorem parseLoop_toks {V : Type} (b : Block V) (ts : List (Tok V))
    (st : PState V) :
    parseLoop (Block.toks b ++ ts) .atKey st
      = match stepBlock b st with
        | .error e => .error e
        | .ok st' => parseLoop ts .atKey st' := by
  obtain ⟨sd, stt, sb, sm⟩ := st
  cases b with
  | default fs => cases sd <;> rfl
  | builder t => cases sb <;> rfl
  | mixin name fs =>
    rw [show parseLoop (Block.toks (Block.mixin name fs) ++ ts) .atKey
          ⟨sd, stt, sb, sm⟩
        = (if fs.all (fun f => f.typ.isNone) then
            parseLoop ts .atKey ⟨sd, stt, sb, sm ++ [(name, fs)]⟩
          else .error .mixinBadField) from rfl,
      show stepBlock (Block.mixin name fs) ⟨sd, stt, sb, sm⟩
        = (if fs.all (fun f => f.typ.isNone) then
            .ok ⟨sd, stt, sb, sm ++ [(name, fs)]⟩
          else .error .mixinBadField) from rfl]
    cases fs.all (fun f => f.typ.isNone) <;> rfl
  | transient fs =>
    cases stt with
    | some x => rfl
    | none =>
      rw [show parseLoop (Block.toks (Block.transient fs) ++ ts) .atKey
            ⟨sd, none, sb, sm⟩
          = (if fs.all (fun f => f.typ.isSome) then
              parseLoop ts .atKey ⟨sd, some fs, sb, sm⟩
            else .error .transientBadField) from rfl,
        show stepBlock (Block.transient fs) ⟨sd, none, sb, sm⟩
          = (if fs.all (fun f => f.typ.isSome) then
              .ok ⟨sd, some fs, sb, sm⟩
            else .error .transientBadField) from rfl]
      cases fs.all (fun f => f.typ.isSome) <;> rfl

theorem parseLoop_flatten {V : Type} :
    ∀ (l : List (Block V)) (st : PState V),
      parseLoop (flattenBlocks l) .atKey st = runBlocks l st := by
  intro l
  induction l with
  | nil => intro st; rfl
  | cons b l ih =>
    intro st
    rw [show flattenBlocks (b :: l) = Block.toks b ++ flattenBlocks l from rfl,
      parseLoop_toks]
    cases hs : stepBlock b st with
    | error e => simp [runBlocks, hs]
    | ok st' => simp [runBlocks, hs, ih]

theorem obit_le_one {α : Type} (o : Option α) : obit o ≤ 1 := by
  cases o <;> simp [obit]

theorem exceptOk_ok_exists {ε α : Type} {r : Except ε α}
    (h : exceptOk r = true) : ∃ x, r = .ok x := by
  cases r with
  | ok x => exact ⟨x, rfl⟩
  | error e => exact Bool.noConfusion h

theorem runBlocks_isOk_iff {V : Type} :
    ∀ (l : List (Block V)) (st : PState V),
      exceptOk (runBlocks l st) = true ↔
        (wfBlocks l = true ∧ countD l + obit st.default ≤ 1
          ∧ countB l + obit st.builder ≤ 1
          ∧ countT l + obit st.transient ≤ 1) := by
  intro l
  induction l with
  | nil =>
    intro st
    simp [runBlocks, exceptOk, wfBlocks, countD, countB, countT, obit_le_one]
  | cons b l ih =>
    intro st
    obtain ⟨sd, stt, sb, sm⟩ := st
    cases b with
    | default fs =>
      cases sd with
      | some x =>
        rw [show runBlocks (Block.default fs :: l) ⟨some x, stt, sb, sm⟩
            = .error .dupDefault from rfl]
        simp [exceptOk, wfBlocks, countD, countB, countT,
          List.countP_cons, List.all_cons, wfBlock, Block.isDefault, obit]
      | none =>
        rw [show runBlocks (Block.default fs :: l) ⟨none, stt, sb, sm⟩
            = runBlocks l ⟨some fs, stt, sb, sm⟩ from rfl, ih]
        simp [wfBlocks, countD, countB, countT, List.countP_cons,
          List.all_cons, wfBlock, Block.isDefault, Block.isBuilder,
          Block.isTransient, obit, Bool.true_and]
    | builder t =>
      cases sb with
      | some x =>
        rw [show runBlocks (Block.builder t :: l) ⟨sd, stt, some x, sm⟩
            = .error .dupBuilder from rfl]
        simp [exceptOk, wfBlocks, countD, countB, countT,
          List.countP_cons, List.all_cons, wfBlock, Block.isBuilder, obit]
      | none =>
        rw [show runBlocks (Block.builder t :: l) ⟨sd, stt, none, sm⟩
            = runBlocks l ⟨sd, stt, some t, sm⟩ from rfl, ih]
        simp [wfBlocks, countD, countB, countT, List.countP_cons,
          List.all_cons, wfBlock, Block.isDefault, Block.isBuilder,
          Block.isTransient, obit, Bool.true_and]
    | mixin name fs =>
      rw [show runBlocks (Block.mixin name fs :: l) ⟨sd, stt, sb, sm⟩
          = (match (if fs.all (fun f => f.typ.isNone) then
                .ok ⟨sd, stt, sb, sm ++ [(name, fs)]⟩
              else (.error .mixinBadField : Except PErr (PState V))) with
            | .error e => .error e
            | .ok st' => runBlocks l st') from rfl]
      cases hall : fs.all (fun f => f.typ.isNone) with
      | false =>
        simp [if_neg Bool.false_ne_true, exceptOk, wfBlocks, countD,
          countB, countT, List.countP_cons, List.all_cons, wfBlock, hall,
          Block.isDefault, Block.isBuilder, Block.isTransient,
          Bool.false_and]
      | true =>
        rw [if_pos rfl, ih]
        simp [wfBlocks, countD, countB, countT, List.countP_cons,
          List.all_cons, wfBlock, hall, Block.isDefault, Block.isBuilder,
          Block.isTransient, Bool.true_and]
    | transient fs =>
      cases stt with
      | some x =>
        rw [show runBlocks (Block.transient fs :: l) ⟨sd, some x, sb, sm⟩
            = .error .dupTransient from rfl]
        simp [exceptOk, wfBlocks, countD, countB, countT,
          List.countP_cons, List.all_cons, wfBlock, Block.isTransient, obit]
      | none =>
        rw [show runBlocks (Block.transient fs :: l) ⟨sd, none, sb, sm⟩
            = (match (if fs.all (fun f => f.typ.isSome) then
                  .ok ⟨sd, some fs, sb, sm⟩
                else (.error .transientBadField : Except PErr (PState V))) with
              | .error e => .error e
              | .ok st' => runBlocks l st') from rfl]
        cases hall : fs.all (fun f => f.typ.isSome) with
        | false =>
          simp [if_neg Bool.false_ne_true, exceptOk, wfBlocks, countD,
            countB, countT, List.countP_cons, List.all_cons, wfBlock, hall,
            Block.isDefault, Block.isBuilder, Block.isTransient,
            Bool.false_and]
        | true =>
          rw [if_pos rfl, ih]
          simp [wfBlocks, countD, countB, countT, List.countP_cons,
            List.all_cons, wfBlock, hall, Block.isDefault, Block.isBuilder,
            Block.isTransient, obit, Bool.true_and]

theorem option_or_none {α : Type} (o : Option α) : o.or none = o := by
  cases o <;> rfl

theorem runBlocks_ok_val {V : Type} :
    ∀ (l : List (Block V)) (st st' : PState V), runBlocks l st = .ok st' →
      st'.default = st.default.or (firstD l) ∧
      st'.builder = st.builder.or (firstB l) ∧
      st'.transient = st.transient.or (firstT l) ∧
      st'.mixins = st.mixins ++ mixinsOf l := by
  intro l
  induction l with
  | nil =>
    intro st st' h
    cases h
    simp [firstD, firstB, firstT, mixinsOf, option_or_none]
  | cons b l ih =>
    intro st st' h
    obtain ⟨sd, stt, sb, sm⟩ := st
    cases b with
    | default fs =>
      cases sd with
      | some x =>
        rw [show runBlocks (Block.default fs :: l) ⟨some x, stt, sb, sm⟩
            = .error .dupDefault from rfl] at h
        cases h
      | none =>
        rw [show runBlocks (Block.default fs :: l) ⟨none, stt, sb, sm⟩
            = runBlocks l ⟨some fs, stt, sb, sm⟩ from rfl] at h
        rcases ih _ _ h with ⟨e1, e2, e3, e4⟩
        refine ⟨?_, ?_, ?_, ?_⟩ <;>
          simp [e1, e2, e3, e4, firstD, firstB, firstT, mixinsOf,
            List.findSome?_cons, option_some_or, option_none_or]
    | builder t =>
      cases sb with
      | some x =>
        rw [show runBlocks (Block.builder t :: l) ⟨sd, stt, some x, sm⟩
            = .error .dupBuilder from rfl] at h
        cases h
      | none =>
        rw [show runBlocks (Block.builder t :: l) ⟨sd, stt, none, sm⟩
            = runBlocks l ⟨sd, stt, some t, sm⟩ from rfl] at h
        rcases ih _ _ h with ⟨e1, e2, e3, e4⟩
        refine ⟨?_, ?_, ?_, ?_⟩ <;>
          simp [e1, e2, e3, e4, firstD, firstB, firstT, mixinsOf,
            List.findSome?_cons, option_some_or, option_none_or]
    | mixin name fs =>
      rw [show runBlocks (Block.mixin name fs :: l) ⟨sd, stt, sb, sm⟩
          = (match (if fs.all (fun f => f.typ.isNone) then
                .ok ⟨sd, stt, sb, sm ++ [(name, fs)]⟩
              else (.error .mixinBadField : Except PErr (PState V))) with
            | .error e => .error e
            | .ok st' => runBlocks l st') from rfl] at h
      cases hall : fs.all (fun f => f.typ.isNone) with
      | false =>
        rw [hall, if_neg Bool.false_ne_true] at h
        cases h
      | true =>
        rw [hall, if_pos rfl] at h
        rcases ih _ _ h with ⟨e1, e2, e3, e4⟩
        refine ⟨?_, ?_, ?_, ?_⟩ <;>
          simp [e1, e2, e3, e4, firstD, firstB, firstT, mixinsOf,
            List.findSome?_cons, option_some_or, option_none_or]
    | transient fs =>
      cases stt with
      | some x =>
        rw [show runBlocks (Block.transient fs :: l) ⟨sd, some x, sb, sm⟩
            = .error .dupTransient from rfl] at h
        cases h
      | none =>
        rw [show runBlocks (Block.transient fs :: l) ⟨sd, none, sb, sm⟩
            = (match (if fs.all (fun f => f.typ.isSome) then
                  .ok ⟨sd, some fs, sb, sm⟩
                else (.error .transientBadField : Except PErr (PState V))) with
              | .error e => .error e
              | .ok st' => runBlocks l st') from rfl] at h
        cases hall : fs.all (fun f => f.typ.isSome) with
        | false =>
          rw [hall, if_neg Bool.false_ne_true] at h
          cases h
        | true =>
          rw [hall, if_pos rfl] at h
          rcases ih _ _ h with ⟨e1, e2, e3, e4⟩
          refine ⟨?_, ?_, ?_, ?_⟩ <;>
            simp [e1, e2, e3, e4, firstD, firstB, firstT, mixinsOf,
              List.findSome?_cons, option_some_or, option_none_or]

theorem firstD_none_iff {V : Type} (l : List (Block V)) :
    firstD l = none ↔ countD l = 0 := by
  induction l with
  | nil => simp [firstD, countD]
  | cons b l ih =>
    cases b <;>
      simp [firstD, countD, List.findSome?_cons, List.countP_cons,
        Block.isDefault] <;>
      simp [firstD, countD] at ih <;>
      exact ih

theorem firstB_none_iff {V : Type} (l : List (Block V)) :
    firstB l = none ↔ countB l = 0 := by
  induction l with
  | nil => simp [firstB, countB]
  | cons b l ih =>
    cases b <;>
      simp [firstB, countB, List.findSome?_cons, List.countP_cons,
        Block.isBuilder] <;>
      simp [firstB, countB] at ih <;>
      exact ih

theorem firstT_none_iff {V : Type} (l : List (Block V)) :
    firstT l = none ↔ countT l = 0 := by
  induction l with
  | nil => simp [firstT, countT]
  | cons b l ih =>
    cases b <;>
      simp [firstT, countT, List.findSome?_cons, List.countP_cons,
        Block.isTransient] <;>
      simp [firstT, countT] at ih <;>
      exact ih

theorem findSome_perm {α β : Type} (p : α → Bool) (f : α → Option β)
    (hcompat : ∀ a, (f a).isSome = p a) :
    ∀ {l₁ l₂ : List α}, l₁.Perm l₂ → l₁.countP p ≤ 1 →
      l₁.findSome? f = l₂.findSome? f := by
  intro l₁ l₂ hperm
  induction hperm with
  | nil => intro _; rfl
  | cons x hp ih =>
    intro hc
    rw [List.findSome?_cons, List.findSome?_cons]
    cases hfx : f x with
    | some b => rfl
    | none =>
      apply ih
      rw [List.countP_cons] at hc
      omega
  | swap x y l =>
    intro hc
    have hcc := hc
    rw [List.countP_cons, List.countP_cons] at hcc
    cases hfy : f y with
    | some b =>
      cases hfx : f x with
      | some b' =>
        exfalso
        have hx : p x = true := by rw [← hcompat x, hfx]; rfl
        have hy : p y = true := by rw [← hcompat y, hfy]; rfl
        rw [hx, hy] at hcc
        simp at hcc
      | none =>
        simp [List.findSome?_cons, hfx, hfy]
    | none =>
      cases hfx : f x with
      | some b' => simp [List.findSome?_cons, hfx, hfy]
      | none => simp [List.findSome?_cons, hfx, hfy]
  | trans h12 h23 ih1 ih2 =>
    intro hc
    rw [ih1 hc, ih2 (by rw [← h12.countP_eq]; exact hc)]

theorem wfBlocks_perm {V : Type} {l₁ l₂ : List (Block V)}
    (hperm : l₁.Perm l₂) (h : wfBlocks l₁ = true) : wfBlocks l₂ = true :=
  List.all_eq_true.mpr fun b hb =>
    List.all_eq_true.mp h b (hperm.mem_iff.mpr hb)

theorem mixinsOf_filter {V : Type} (l : List (Block V)) :
    mixinsOf l = mixinsOf (l.filter Block.isMixin) := by
  induction l with
  | nil => rfl
  | cons b l ih =>
    cases b <;> simp [mixinsOf, List.filter_cons, Block.isMixin] <;>
      simp [mixinsOf] at ih <;> exact ih

theorem defineDef_err {V : Type} {ts : List (Tok V)} {e : PErr}
    (h : parseDefinition ts = .error e) : defineDef ts = .error e := by
  unfold defineDef
  rw [h]

theorem defineDef_ok {V : Type} {ts : List (Tok V)} {d : PDef V}
    (h : parseDefinition ts = .ok d) :
    defineDef ts = match validate d with
      | some e => .error e
      | none => .ok d := by
  unfold defineDef
  rw [h]

/-! ## The claims about the parser and validator -/

/-- C6: over grammar-conformant definition bodies (every transient
field typed and no mixin field typed — anything else is the separate
malformed-token error tier of §4.1), `Definition::parse` followed by
`Definition::validate` fails, producing an error instead of artifacts,
exactly when the default block is missing, or a default / builder /
transient block appears twice, or a builder block is present while some
default field lacks a type annotation; and in that last case, when the
blocks themselves parse, the diagnostic carries the name of the first
untyped default field. -/
theorem c6_definition_errors {V : Type} (l : List (Block V))
    (hwf : wfBlocks l = true) :
    (exceptOk (defineDef (flattenBlocks l)) = false ↔
      (countD l ≠ 1 ∨ 2 ≤ countB l ∨ 2 ≤ countT l ∨
        (1 ≤ countB l ∧ ∃ f ∈ (firstD l).getD [], f.typ = none))) ∧
    (∀ fld, countD l = 1 → countB l ≤ 1 → countT l ≤ 1 → 1 ≤ countB l →
      ((firstD l).getD []).find? (fun f => f.typ.isNone) = some fld →
      defineDef (flattenBlocks l) = .error (.missingType fld.name)) := by
  cases hr : runBlocks l (⟨none, none, none, []⟩ : PState V) with
  | error e =>
    have hdd : defineDef (flattenBlocks l) = .error e := by
      unfold defineDef parseDefinition
      rw [parseLoop_flatten, hr]
    have hnotok : exceptOk (runBlocks l (⟨none, none, none, []⟩ : PState V))
        = false := by
      rw [hr]; rfl
    have hnot : ¬ (wfBlocks l = true ∧ countD l ≤ 1 ∧ countB l ≤ 1
        ∧ countT l ≤ 1) := by
      rintro ⟨k1, k2, k3, k4⟩
      have hok : exceptOk (runBlocks l (⟨none, none, none, []⟩ : PState V))
          = true :=
        (runBlocks_isOk_iff l ⟨none, none, none, []⟩).mpr
          ⟨k1, by simpa [obit] using k2, by simpa [obit] using k3,
            by simpa [obit] using k4⟩
      rw [hnotok] at hok
      cases hok
    refine ⟨iff_of_true (by rw [hdd]; rfl) ?_, fun fld h1 h2 h3 h4 h5 => ?_⟩
    · by_contra hR
      push_neg at hR
      obtain ⟨k1, k2, k3, -⟩ := hR
      exact hnot ⟨hwf, by omega, by omega, by omega⟩
    · exact absurd ⟨hwf, by omega, by omega, by omega⟩ hnot
  | ok st =>
    obtain ⟨sdef, strans, sbuild, smix⟩ := st
    have hok : exceptOk (runBlocks l (⟨none, none, none, []⟩ : PState V))
        = true := by
      rw [hr]; rfl
    have hc := (runBlocks_isOk_iff l ⟨none, none, none, []⟩).mp hok
    simp only [obit] at hc
    obtain ⟨-, hcd, hcb, hct⟩ := hc
    simp at hcd hcb hct
    have hval := runBlocks_ok_val l _ _ hr
    simp only [option_none_or] at hval
    simp at hval
    obtain ⟨hvd, hvb, hvt, hvm⟩ := hval
    cases sdef with
    | none =>
      have hcd0 : countD l = 0 := (firstD_none_iff l).mp hvd.symm
      have hdd : defineDef (flattenBlocks l) = .error .missingDefault := by
        apply defineDef_err
        unfold parseDefinition
        rw [parseLoop_flatten, hr]
      refine ⟨iff_of_true (by rw [hdd]; rfl) (Or.inl (by omega)),
        fun fld h1 h2 h3 h4 h5 => ?_⟩
      omega
    | some fs =>
      have hd1 : countD l = 1 := by
        rcases Nat.lt_or_ge (countD l) 1 with hlt | hge
        · exfalso
          have h0 : countD l = 0 := by omega
          have hn := (firstD_none_iff l).mpr h0
          rw [← hvd] at hn
          cases hn
        · omega
      have hpd : parseDefinition (flattenBlocks l)
          = .ok ⟨fs, strans, sbuild, smix⟩ := by
        unfold parseDefinition
        rw [parseLoop_flatten, hr]
      cases hfind : fs.find? (fun f => f.typ.isNone) with
      | none =>
        have hvalid : validate (⟨fs, strans, sbuild, smix⟩ : PDef V)
            = none := by
          simp [validate, hfind]
        have hdd : defineDef (flattenBlocks l)
            = .ok ⟨fs, strans, sbuild, smix⟩ := by
          rw [defineDef_ok hpd, hvalid]
        refine ⟨iff_of_false (by rw [hdd]; simp [exceptOk]) ?_,
          fun fld h1 h2 h3 h4 h5 => ?_⟩
        · rintro (k | k | k | ⟨k1, f, hfmem, hftyp⟩)
          · exact k hd1
          · omega
          · omega
          · rw [← hvd] at hfmem
            simp at hfmem
            have hnone := List.find?_eq_none.mp hfind f hfmem
            simp [hftyp] at hnone
        · rw [← hvd] at h5
          simp at h5
          rw [hfind] at h5
          cases h5
      | some f0 =>
        cases sbuild with
        | none =>
          have hb0 : countB l = 0 := (firstB_none_iff l).mp hvb.symm
          have hvalid : validate (⟨fs, strans, none, smix⟩ : PDef V)
              = none := by
            simp [validate, hfind]
          have hdd : defineDef (flattenBlocks l)
              = .ok ⟨fs, strans, none, smix⟩ := by
            rw [defineDef_ok hpd, hvalid]
          refine ⟨iff_of_false (by rw [hdd]; simp [exceptOk]) ?_,
            fun fld h1 h2 h3 h4 h5 => ?_⟩
          · rintro (k | k | k | ⟨k1, -⟩)
            · exact k hd1
            · omega
            · omega
            · omega
          · omega
        | some bt =>
          have hb1 : 1 ≤ countB l := by
            rcases Nat.lt_or_ge (countB l) 1 with hlt | hge
            · exfalso
              have h0 : countB l = 0 := by omega
              have hn := (firstB_none_iff l).mpr h0
              rw [← hvb] at hn
              cases hn
            · omega
          have hvalid : validate (⟨fs, strans, some bt, smix⟩ : PDef V)
              = some (.missingType f0.name) := by
            simp [validate, hfind]
          have hdd : defineDef (flattenBlocks l)
              = .error (.missingType f0.name) := by
            rw [defineDef_ok hpd, hvalid]
          refine ⟨iff_of_true (by rw [hdd]; rfl) ?_,
            fun fld h1 h2 h3 h4 h5 => ?_⟩
          · refine Or.inr (Or.inr (Or.inr ⟨hb1, f0, ?_, ?_⟩))
            · rw [← hvd]
              simp
              exact List.mem_of_find?_eq_some hfind
            · have hp := List.find?_some hfind
              simpa [Option.isNone_iff_eq_none] using hp
          · rw [← hvd] at h5
            simp at h5
            rw [hfind] at h5
            injection h5 with h5
            rw [hdd, h5]

theorem c6_definition_errors_witness :
    defineDef (flattenBlocks lC6) = .error (.missingType "f") :=
  (c6_definition_errors lC6 (by decide)).2 ⟨"f", none, 1⟩ (by decide)
    (by decide) (by decide) (by decide) (by decide)

/-- C7 counterexample: a definition body containing an unknown block
`myblock { }` after a valid default block is not silently accepted: the
parser skips the unknown key, then fails expecting an identifier when
it reaches the block's brace group. -/
theorem c7_counterexample :
    parseDefinition ([.ident "default", .braced [⟨"f", none, 4⟩],
        .ident "myblock", .braced []] : List (Tok Nat))
      = .error .expectedIdent ∧
    parseDefinition ([.ident "default", .braced [⟨"f", none, (4 : Nat)⟩],
        .ident "myblock", .braced []])
      ≠ .ok ⟨[⟨"f", none, 4⟩], none, none, []⟩ :=
  ⟨rfl, fun h => Except.noConfusion h⟩

/-- C7 (amended): the parser silently ignores an unknown block KEY — a
bare unrecognized identifier is skipped and contributes nothing to the
resulting `Definition` — but an unknown block with a braced body is
rejected: once the key is skipped, its brace group sits in key position
and identifier parsing fails, a terminal parse error. -/
theorem c7_unknown_block {V : Type} (k : String) (ts : List (Tok V))
    (fs : List (Field V)) (st : PState V)
    (h1 : k ≠ "default") (h2 : k ≠ "builder") (h3 : k ≠ "mixin")
    (h4 : k ≠ "transient") :
    parseLoop (.ident k :: ts) .atKey st = parseLoop ts .atKey st ∧
    parseLoop (.ident k :: .braced fs :: ts) .atKey st
      = .error .expectedIdent := by
  have hskip : ∀ ts' : List (Tok V),
      parseLoop (.ident k :: ts') .atKey st = parseLoop ts' .atKey st := by
    intro ts'
    simp [parseLoop, h1, h2, h3, h4]
  refine ⟨hskip ts, ?_⟩
  rw [hskip (.braced fs :: ts)]
  rfl

theorem c7_unknown_block_witness :
    parseLoop ([.ident "zzz"] : List (Tok Nat)) .atKey ⟨none, none, none, []⟩
      = parseLoop [] .atKey ⟨none, none, none, []⟩ ∧
    parseLoop ([.ident "zzz", .braced []] : List (Tok Nat)) .atKey
        ⟨none, none, none, []⟩
      = .error .expectedIdent :=
  c7_unknown_block "zzz" [] [] ⟨none, none, none, []⟩
    (by decide) (by decide) (by decide) (by decide)

/-- C10: block order does not matter: parsing a definition body with
its blocks permuted — keeping the mixin blocks in the same relative
order among themselves — yields the same `Definition` record, and hence
the same parse-and-validate outcome; in particular the default block
may come after mixin blocks without changing the result. -/
theorem c10_block_order {V : Type} (l₁ l₂ : List (Block V)) (d : PDef V)
    (hperm : l₁.Perm l₂)
    (hmix : l₁.filter Block.isMixin = l₂.filter Block.isMixin)
    (h : parseDefinition (flattenBlocks l₁) = .ok d) :
    parseDefinition (flattenBlocks l₂) = .ok d ∧
    defineDef (flattenBlocks l₂) = defineDef (flattenBlocks l₁) := by
  cases hr1 : runBlocks l₁ (⟨none, none, none, []⟩ : PState V) with
  | error e =>
    exfalso
    unfold parseDefinition at h
    rw [parseLoop_flatten, hr1] at h
    cases h
  | ok st =>
    obtain ⟨sdef, strans, sbuild, smix⟩ := st
    unfold parseDefinition at h
    rw [parseLoop_flatten, hr1] at h
    cases sdef with
    | none => cases h
    | some fs =>
      injection h with h
      have hok1 : exceptOk (runBlocks l₁ (⟨none, none, none, []⟩ : PState V))
          = true := by
        rw [hr1]; rfl
      have hc1 := (runBlocks_isOk_iff l₁ ⟨none, none, none, []⟩).mp hok1
      obtain ⟨hwf1, hcd1, hcb1, hct1⟩ := hc1
      have hcd1' : countD l₁ ≤ 1 := by simpa [obit] using hcd1
      have hcb1' : countB l₁ ≤ 1 := by simpa [obit] using hcb1
      have hct1' : countT l₁ ≤ 1 := by simpa [obit] using hct1
      have hval1 := runBlocks_ok_val l₁ _ _ hr1
      simp only [option_none_or] at hval1
      simp at hval1
      obtain ⟨hvd1, hvb1, hvt1, hvm1⟩ := hval1
      have hwf2 : wfBlocks l₂ = true := wfBlocks_perm hperm hwf1
      have hcd2 : countD l₂ = countD l₁ := (hperm.countP_eq _).symm
      have hcb2 : countB l₂ = countB l₁ := (hperm.countP_eq _).symm
      have hct2 : countT l₂ = countT l₁ := (hperm.countP_eq _).symm
      have hok2 : exceptOk (runBlocks l₂ (⟨none, none, none, []⟩ : PState V))
          = true := by
        apply (runBlocks_isOk_iff l₂ ⟨none, none, none, []⟩).mpr
        refine ⟨hwf2, ?_, ?_, ?_⟩
        · simpa [obit, hcd2] using hcd1'
        · simpa [obit, hcb2] using hcb1'
        · simpa [obit, hct2] using hct1'
      rcases exceptOk_ok_exists hok2 with ⟨st₂, hr2⟩
      obtain ⟨sdef2, strans2, sbuild2, smix2⟩ := st₂
      have hval2 := runBlocks_ok_val l₂ _ _ hr2
      simp only [option_none_or] at hval2
      simp at hval2
      obtain ⟨hvd2, hvb2, hvt2, hvm2⟩ := hval2
      have hfd : firstD l₂ = firstD l₁ :=
        (findSome_perm Block.isDefault _ (fun b => by cases b <;> rfl)
          hperm hcd1').symm
      have hfb : firstB l₂ = firstB l₁ :=
        (findSome_perm Block.isBuilder _ (fun b => by cases b <;> rfl)
          hperm hcb1').symm
      have hft : firstT l₂ = firstT l₁ :=
        (findSome_perm Block.isTransient _ (fun b => by cases b <;> rfl)
          hperm hct1').symm
      have hmx : mixinsOf l₂ = mixinsOf l₁ := by
        rw [mixinsOf_filter l₂, ← hmix, ← mixinsOf_filter l₁]
      have hpd2 : parseDefinition (flattenBlocks l₂) = .ok d := by
        unfold parseDefinition
        rw [parseLoop_flatten, hr2, hvd2, hfd, ← hvd1, hvb2, hfb, ← hvb1,
          hvt2, hft, ← hvt1, hvm2, hmx, ← hvm1, ← h]
      have hpd1 : parseDefinition (flattenBlocks l₁) = .ok d := by
        unfold parseDefinition
        rw [parseLoop_flatten, hr1, ← h]
      exact ⟨hpd2, by unfold defineDef; rw [hpd2, hpd1]⟩

theorem c10_block_order_witness :
    parseDefinition (flattenBlocks lP2)
      = .ok ⟨[⟨"f", none, 4⟩], none, none, [("A", [⟨"f", none, 1⟩])]⟩ ∧
    defineDef (flattenBlocks lP2) = defineDef (flattenBlocks lP1) :=
  c10_block_order lP1 lP2
    ⟨[⟨"f", none, 4⟩], none, none, [("A", [⟨"f", none, 1⟩])]⟩
    (by decide) (by decide) rfl

end Factori
